import Mathlib

/-!
Shallow embedding of the kr-transformer library (src/Transformer.ts and
src/Errors.ts) in Lean 4, together with theorems checking the claims of the
specification against the code.

The embedding models the JavaScript runtime values the library manipulates
(primitives, arrays, Map/Set/Date instances, plain and prototype-less objects,
class instances), the optional static `types` schema, and the two public
operations `Transformer.fromJSON` and `Transformer.toJSON`, line by line from
the source.  Recursion is fuel-indexed (the source recursion is unbounded);
`TErr.outOfFuel` marks fuel exhaustion, `TErr.thrown` a JavaScript exception
(`TransformerError` or a generic `TypeError`).
-/

namespace KrT

/-- Property keys: strings or symbols (symbols identified by a number). -/
inductive PKey where
  | s (name : String)
  | sym (id : Nat)
deriving DecidableEq

/-- How a Date instance was obtained: `new Date()`, `new Date(string)` or
`new Date(number)`.  The host platform date parsing and serialization are
outside the library (spec section 1), so date payloads stay symbolic. -/
inductive DateTag where
  | now
  | fromStr (s : String)
  | fromNum (n : Int)
deriving DecidableEq

/-- Modelled host primitive: the ISO-8601 serialization a Date contributes
under JSON.stringify (Date.prototype.toJSON). Kept symbolic per construction
tag; theorems only use it as an opaque-but-computable serialization. -/
def DateTag.toISOString : DateTag → String
  | .now => "now.toISOString"
  | .fromStr s => "dateFromString..toISOString:" ++ s
  | .fromNum n => "dateFromNumber..toISOString:" ++ toString n

/-- Structured payloads of the messages in src/Errors.ts, plus the two ad-hoc
messages thrown inline by fromJSON (lines 68 and 73 of Transformer.ts). -/
inductive EMsg where
  | invalidConstructor
  | invalidJson (typeofInput : String) (cls : String)
  | mismatchSchema (key cls : String)
  | invalidType (key cls expectedTypeof actualTypeof : String)
  | invalidSetType (key cls : String)
  | invalidMapType (key cls : String)
  | invalidArrayType (key cls : String)
  | typeNotFound (key cls : String)
  | invalidTypesConstructor (key cls : String)
deriving DecidableEq

/-- A thrown JavaScript exception: a TransformerError or a generic TypeError
(e.g. `Reflect.get called on non-object`). -/
inductive JSError where
  | transformer (m : EMsg)
  | typeError (m : String)
deriving DecidableEq

/-- Interpreter outcome tag: fuel exhaustion of the model, or a real thrown
exception of the code. -/
inductive TErr where
  | outOfFuel
  | thrown (e : JSError)
deriving DecidableEq

mutual

/-- JavaScript runtime values as used by the library. `obj none _` is a
prototype-less object (`Object.create(null)`); `obj (some K) _` is an instance
whose prototype constructor is `K` (plain JSON objects use `JSClass.objectC`). -/
inductive JSValue where
  | undefined
  | null
  | str (s : String)
  | num (n : Int)
  | bool (b : Bool)
  | func
  | arr (elems : List JSValue)
  | date (d : DateTag)
  | set (elems : List JSValue)
  | map (entries : List (String × JSValue))
  | obj (proto : Option JSClass) (props : List JSProp)

/-- An own property of an object: key, writable flag, enumerable flag, value. -/
inductive JSProp where
  | mk (key : PKey) (writable : Bool) (enumerable : Bool) (val : JSValue)

/-- A zero-argument constructor: a user class (name, instance fields created by
the constructor, optional static `types` schema) or one of the built-ins. -/
inductive JSClass where
  | user (name : String) (fields : List JSProp) (types : List (String × JSDescriptor))
  | objectC
  | arrayC
  | mapC
  | setC
  | dateC
  | stringC
  | numberC
  | booleanC

/-- A schema field descriptor object. Members mirror the properties the code
reads from it: `type`, `of`, `off` (the Set branch reads the key `off`), and
`strict`.  `none` models an absent (or non-constructor) member. -/
inductive JSDescriptor where
  | mk (typeM : Option JSClass) (ofM : Option JSClass) (offM : Option JSClass)
       (strictM : Option Bool)

end

namespace JSProp

def key : JSProp → PKey
  | .mk k _ _ _ => k

def writable : JSProp → Bool
  | .mk _ w _ _ => w

def enumerable : JSProp → Bool
  | .mk _ _ e _ => e

def val : JSProp → JSValue
  | .mk _ _ _ v => v

end JSProp

/-- JavaScript `typeof`. -/
def typeofJS : JSValue → String
  | .undefined => "undefined"
  | .null => "object"
  | .str _ => "string"
  | .num _ => "number"
  | .bool _ => "boolean"
  | .func => "function"
  | .arr _ => "object"
  | .date _ => "object"
  | .set _ => "object"
  | .map _ => "object"
  | .obj _ _ => "object"

/-- JavaScript truthiness (`!value` is `!truthy value`).  NaN is not modelled. -/
def truthy : JSValue → Bool
  | .undefined => false
  | .null => false
  | .str s => ¬ (s = "")
  | .num n => ¬ (n = 0)
  | .bool b => b
  | _ => true

/-- Test `Object(value) !== value`: the value is a primitive. -/
def isPrimitiveVal : JSValue → Bool
  | .undefined | .null | .str _ | .num _ | .bool _ => true
  | _ => false

/-- Loose `value == null` (true for null and undefined). -/
def looseNull : JSValue → Bool
  | .null | .undefined => true
  | _ => false

/-- Test `Array.isArray`. -/
def isArr : JSValue → Bool
  | .arr _ => true
  | _ => false

def elemsOf : JSValue → List JSValue
  | .arr xs => xs
  | _ => []

/-- Model of the private isPrimitive check: the constructor is String, Number or Boolean. -/
def isPrimitiveCtor : JSClass → Bool
  | .stringC | .numberC | .booleanC => true
  | _ => false

/-- First own property with the given key. -/
def findProp : List JSProp → PKey → Option JSProp
  | [], _ => none
  | p :: ps, k => if p.key = k then some p else findProp ps k

/-- Model of `Reflect.getOwnPropertyDescriptor` (and own value lookup).  Arrays expose
their index properties and a writable non-enumerable `length`; Map/Set/Date
keep their data in internal slots and expose no own properties. -/
def getOwnPropObj : JSValue → PKey → Option JSProp
  | .obj _ props, k => findProp props k
  | .arr xs, .s k =>
      if k = "length" then some (.mk (.s "length") true false (.num xs.length))
      else xs.enum.findSome? (fun e =>
        if toString e.1 = k then some (JSProp.mk (.s k) true true e.2) else none)
  | _, _ => none

/-- Existence test used at line 79 (`Reflect.getOwnPropertyDescriptor(json, property)`). -/
def hasOwn (v : JSValue) (k : String) : Bool :=
  (getOwnPropObj v (.s k)).isSome

/-- Model of `Reflect.get(json, property)`: own lookup, `undefined` when absent. -/
def reflectGet (v : JSValue) (k : String) : JSValue :=
  match getOwnPropObj v (.s k) with
  | some p => p.val
  | none => .undefined

/-- Update (or create) the own property `k` of a property list, as
`Reflect.set` does on an ordinary object: the first existing property with
that key is updated when writable (flags preserved), otherwise nothing
happens; an absent key is appended writable and enumerable. -/
def setPropList : List JSProp → PKey → JSValue → List JSProp
  | [], k, v => [.mk k true true v]
  | p :: rest, k, v =>
      if p.key = k then
        (if p.writable then JSProp.mk k p.writable p.enumerable v :: rest else p :: rest)
      else p :: setPropList rest k v

/-- Model of `Reflect.set` for the object targets the model mutates. -/
def setProp : JSValue → PKey → JSValue → JSValue
  | .obj proto props, k, v => .obj proto (setPropList props k v)
  | other, _, _ => other

/-- Model of `Map.prototype.set`: replace the entry with that key or append it. -/
def mapSet : List (String × JSValue) → String → JSValue → List (String × JSValue)
  | [], k, v => [(k, v)]
  | e :: rest, k, v => if e.1 = k then (k, v) :: rest else e :: mapSet rest k v

/-- SameValueZero for primitives; distinct object references never compare
equal (fresh objects in this model are always distinct references). -/
def primSame : JSValue → JSValue → Bool
  | .undefined, .undefined => true
  | .null, .null => true
  | .str a, .str b => a = b
  | .num a, .num b => a = b
  | .bool a, .bool b => a = b
  | _, _ => false

/-- Model of `Set.prototype.add` on the element list (dedups primitives by value). -/
def setAdd (xs : List JSValue) (v : JSValue) : List JSValue :=
  if isPrimitiveVal v && xs.any (fun x => primSame x v) then xs else xs ++ [v]

/-- Model of `Object.entries`: own enumerable string-keyed properties. -/
def objectEntries : JSValue → List (String × JSValue)
  | .obj _ props => props.filterMap (fun p =>
      match p with
      | .mk (.s k) _ true v => some (k, v)
      | _ => none)
  | .arr xs => xs.enum.map (fun e => (toString e.1, e.2))
  | _ => []

/-- Model of `Reflect.ownKeys`. -/
def ownKeys : JSValue → List PKey
  | .obj _ props => props.map JSProp.key
  | .arr xs => (xs.enum.map (fun e => PKey.s (toString e.1))) ++ [.s "length"]
  | _ => []

/-- Model of `new Class()`.  User-class construction materializes the declared fields;
built-ins produce their default-initialized instances (boxed wrappers for the
primitive constructors, which the library never reaches in practice). -/
def constructJS : JSClass → JSValue
  | .user n fs tys => .obj (some (.user n fs tys)) fs
  | .objectC => .obj (some .objectC) []
  | .arrayC => .arr []
  | .mapC => .map []
  | .setC => .set []
  | .dateC => .date .now
  | .stringC => .obj (some .stringC) []
  | .numberC => .obj (some .numberC) []
  | .booleanC => .obj (some .booleanC) []

def className : JSClass → String
  | .user n _ _ => n
  | .objectC => "Object"
  | .arrayC => "Array"
  | .mapC => "Map"
  | .setC => "Set"
  | .dateC => "Date"
  | .stringC => "String"
  | .numberC => "Number"
  | .booleanC => "Boolean"

/-- Static schema lookup, `Reflect.get` of the key `types` on the class (with the
prototype-less empty fallback), as an entry list. -/
def typesOf : JSClass → List (String × JSDescriptor)
  | .user _ _ tys => tys
  | _ => []

/-- Schema entry lookup `types[property]`. -/
def lookupDescriptor : List (String × JSDescriptor) → String → Option JSDescriptor
  | [], _ => none
  | e :: rest, k => if e.1 = k then some e.2 else lookupDescriptor rest k

/-- Model of the private shouldThrow helper (lines 213-216): with a descriptor
present the result is the `strict` member of the descriptor or-ed with the
ambient flag. -/
def shouldThrowFn (strict : Bool) : Option JSDescriptor → Bool
  | none => strict
  | some (.mk _ _ _ strictM) => strictM.getD false || strict

/-- TransformerError result helper. -/
def terr {α : Type} (m : EMsg) : Except TErr α :=
  .error (.thrown (.transformer m))

/-- Apply the outcome of one field iteration to the instance: `none` leaves
the instance alone, `some v` is a `Reflect.set`/in-place mutation of that key. -/
def applyAct (a : JSValue) (key : PKey) : Option JSValue → JSValue
  | none => a
  | some v => setProp a key v

/-- Run the `Reflect.ownKeys(...).forEach` loop: the step of each key either
throws (aborting the whole call), skips, or produces the new field value. -/
def runKeys (step : JSValue → PKey → Except TErr (Option JSValue)) :
    JSValue → List PKey → Except TErr JSValue
  | acc, [] => .ok acc
  | acc, key :: rest => do
      let r ← step acc key
      runKeys step (applyAct acc key r) rest

/-- Decode the elements of a json array against the declared element type
(Transformer.ts lines 105-107): `value.push(this.fromJSON(element, Type, shouldThrow))`. -/
def decodeArrElems (recur : JSValue → JSClass → Bool → Except TErr JSValue)
    (ty : JSClass) (sthrow : Bool) : List JSValue → Except TErr (List JSValue)
  | [] => .ok []
  | e :: rest => do
      let y ← recur e ty sthrow
      let ys ← decodeArrElems recur ty sthrow rest
      .ok (y :: ys)

/-- Decode `Object.entries(jsonValue)` into the default Map
(Transformer.ts lines 119-125). -/
def decodeMapEntries (recur : JSValue → JSClass → Bool → Except TErr JSValue)
    (ofM : Option JSClass) (sthrow : Bool) :
    List (String × JSValue) → List (String × JSValue) →
    Except TErr (List (String × JSValue))
  | acc, [] => .ok acc
  | acc, e :: rest => do
      let v ←
        match ofM with
        | some ty =>
            if isPrimitiveCtor ty = false then recur e.2 ty sthrow else pure e.2
        | none => pure e.2
      decodeMapEntries recur ofM sthrow (mapSet acc e.1 v) rest

/-- Add the json array items into the default Set (Transformer.ts lines
137-143); the element type is read from the descriptor key `off`. -/
def decodeSetItems (recur : JSValue → JSClass → Bool → Except TErr JSValue)
    (offM : Option JSClass) (sthrow : Bool) :
    List JSValue → List JSValue → Except TErr (List JSValue)
  | acc, [] => .ok acc
  | acc, it :: rest => do
      let v ←
        match offM with
        | some ty =>
            if isPrimitiveCtor ty = false then recur it ty sthrow else pure it
        | none => pure it
      decodeSetItems recur offM sthrow (setAdd acc v) rest

/-- One iteration of the fromJSON field loop (Transformer.ts lines 58-165),
returning the value the iteration leaves in the field (`none`: untouched).
The two direct `Reflect.get(descriptor, ...)` reads in the Array/Map/Set
branches raise a genuine TypeError when the descriptor is `undefined`; the
Set and Date branches fall through into the constructor recursion at line
164, whose `Reflect.set(instance, property, ..., shouldThrow)` passes a
boolean receiver and therefore never assigns. -/
def fieldAction (recur : JSValue → JSClass → Bool → Except TErr JSValue)
    (json : JSValue) (cname : String) (tys : List (String × JSDescriptor))
    (strict : Bool) (inst : JSValue) (key : PKey) :
    Except TErr (Option JSValue) :=
  match getOwnPropObj inst key with
  | none => .ok none
  | some p =>
    if p.writable = false then .ok none
    else match key with
    | .sym _ => .ok none
    | .s prop =>
      let descriptor := lookupDescriptor tys prop
      let sthrow := shouldThrowFn strict descriptor
      do
        let value ←
          if truthy p.val = true then pure p.val
          else if sthrow = true ∧ descriptor.isNone = true then
            terr (.typeNotFound prop cname)
          else
            match descriptor with
            | none => terr (.invalidTypesConstructor prop cname)
            | some (.mk typeM _ _ _) =>
              match typeM with
              | none => terr (.invalidTypesConstructor prop cname)
              | some k => pure (constructJS k)
        if typeofJS value = "function" then pure none
        else if sthrow = true ∧ hasOwn json prop = false then
          terr (.mismatchSchema prop cname)
        else
        let jsonValue := reflectGet json prop
        match value with
        | .undefined | .null | .str _ | .num _ | .bool _ =>
          if sthrow = true ∧ ¬ typeofJS value = typeofJS jsonValue then
            terr (.invalidType prop cname (typeofJS value) (typeofJS jsonValue))
          else pure (some jsonValue)
        | .arr elems =>
          if isArr jsonValue = false then
            if sthrow = true then terr (.invalidArrayType prop cname)
            else pure (some jsonValue)
          else
            match descriptor with
            | none => .error (.thrown (.typeError "Reflect.get called on non-object"))
            | some (.mk _ ofM _ _) =>
              match ofM with
              | none => pure (some jsonValue)
              | some ty =>
                if isPrimitiveCtor ty = true then pure (some jsonValue)
                else do
                  let news ← decodeArrElems recur ty sthrow (elemsOf jsonValue)
                  pure (some (.arr (elems ++ news)))
        | .map entries =>
          if ¬ typeofJS jsonValue = "object" ∨ looseNull jsonValue = true then
            if sthrow = true then terr (.invalidMapType prop cname)
            else pure (some jsonValue)
          else
            match descriptor with
            | none => .error (.thrown (.typeError "Reflect.get called on non-object"))
            | some (.mk _ ofM _ _) => do
              let es ← decodeMapEntries recur ofM sthrow entries (objectEntries jsonValue)
              pure (some (.map es))
        | .set elems =>
          if isArr jsonValue = false then
            if sthrow = true then terr (.invalidSetType prop cname)
            else pure (some jsonValue)
          else
            match descriptor with
            | none => .error (.thrown (.typeError "Reflect.get called on non-object"))
            | some (.mk _ _ offM _) => do
              let items ← decodeSetItems recur offM sthrow elems (elemsOf jsonValue)
              let _ ← recur jsonValue .setC true
              pure (some (.set items))
        | .date _ =>
          let dateValue :=
            match jsonValue with
            | .str s => JSValue.date (.fromStr s)
            | .num n => JSValue.date (.fromNum n)
            | other => other
          if sthrow = true then
            terr (.invalidType prop cname "string" (typeofJS jsonValue))
          else do
            let _ ← recur jsonValue .dateC true
            pure (some dateValue)
        | .obj none _ =>
          if (sthrow = true ∧ looseNull jsonValue = true) ∨ ¬ typeofJS jsonValue = "object" then
            terr (.invalidType prop cname "object" (typeofJS jsonValue))
          else pure (some jsonValue)
        | .obj (some k) _ => do
          let _ ← recur jsonValue k true
          pure none
        | .func => pure none

/-- Model of `Transformer.fromJSON(json, Class, strict)` (Transformer.ts lines 38-168),
fuel-indexed.  The `arguments.length` check and the try/catch around
`new Class()` concern call shapes that are not expressible in the typed model
(the model constructor is total). -/
def fromJSON : Nat → JSValue → JSClass → Bool → Except TErr JSValue
  | 0, _, _, _ => .error .outOfFuel
  | Nat.succ fuel, json, cls, strict =>
    let inst0 := constructJS cls
    let cname := className cls
    let tys := typesOf cls
    if looseNull json = true ∨ ¬ typeofJS json = "object" then
      .error (.thrown (.transformer (.invalidJson (typeofJS json) cname)))
    else
      runKeys
        (fieldAction (fun j k s => fromJSON fuel j k s) json cname tys strict)
        inst0 (ownKeys inst0)

/-- Encode the items of an Array or Set field (Transformer.ts lines 180-190). -/
def encodeItems (recur : JSValue → Except TErr JSValue) :
    List JSValue → Except TErr (List JSValue)
  | [] => .ok []
  | it :: rest => do
      let y ← if isPrimitiveVal it = true then pure it else recur it
      let ys ← encodeItems recur rest
      .ok (y :: ys)

/-- Encode the entries of a Map field into a fresh plain object
(Transformer.ts lines 192-202). -/
def encodeEntries (recur : JSValue → Except TErr JSValue) :
    JSValue → List (String × JSValue) → Except TErr JSValue
  | acc, [] => .ok acc
  | acc, e :: rest => do
      let y ← if isPrimitiveVal e.2 = true then pure e.2 else recur e.2
      encodeEntries recur (setProp acc (.s e.1) y) rest

/-- One iteration of the toJSON loop (Transformer.ts lines 172-208), returning
the value written into `result` for that key (`none`: skipped). -/
def encodeField (recur : JSValue → Except TErr JSValue) (inst : JSValue)
    (key : PKey) : Except TErr (Option JSValue) :=
  match getOwnPropObj inst key with
  | none => .ok none
  | some p =>
    if typeofJS p.val = "function" then .ok none
    else match key with
    | .sym _ => .ok none
    | .s _ =>
      match p.val with
      | .undefined => .ok (some .undefined)
      | .null => .ok (some .null)
      | .str s => .ok (some (.str s))
      | .num n => .ok (some (.num n))
      | .bool b => .ok (some (.bool b))
      | .arr xs => do
          let ys ← encodeItems recur xs
          pure (some (.arr ys))
      | .set xs => do
          let ys ← encodeItems recur xs
          pure (some (.arr ys))
      | .map entries => do
          let o ← encodeEntries recur (JSValue.obj (some .objectC) []) entries
          pure (some o)
      | .date d => .ok (some (.date d))
      | .func => .ok none
      | .obj proto props => do
          let r ← recur (.obj proto props)
          pure (some r)

/-- Elements of the final `JSON.parse(JSON.stringify(...))` pass on an array:
omitted elements serialize as null. -/
def jrtList (g : JSValue → Except TErr (Option JSValue)) :
    List JSValue → Except TErr (List JSValue)
  | [] => .ok []
  | x :: xs => do
      let y ← g x
      let ys ← jrtList g xs
      .ok ((y.getD .null) :: ys)

/-- Properties of the final serialization pass on an object: own enumerable
string-keyed properties survive (fully writable/enumerable after parsing),
entries whose value serializes as omitted are dropped. -/
def jrtProps (g : JSValue → Except TErr (Option JSValue)) :
    List JSProp → Except TErr (List JSProp)
  | [] => .ok []
  | p :: ps =>
      match p with
      | .mk (.s k) _ true pv => do
          let r ← g pv
          let rest ← jrtProps g ps
          match r with
          | some v => .ok (.mk (.s k) true true v :: rest)
          | none => .ok rest
      | _ => jrtProps g ps

/-- Model of `JSON.parse(JSON.stringify(v))` (Transformer.ts line 209): `none` means the
value is omitted by serialization (undefined / function); dates serialize via
`Date.prototype.toJSON` to their ISO string; Map/Set have no own enumerable
properties and flatten to `{}`; every surviving object is a plain object. -/
def jrtV : Nat → JSValue → Except TErr (Option JSValue)
  | 0, _ => .error .outOfFuel
  | Nat.succ fuel, v =>
    match v with
    | .undefined => .ok none
    | .func => .ok none
    | .null => .ok (some .null)
    | .str s => .ok (some (.str s))
    | .num n => .ok (some (.num n))
    | .bool b => .ok (some (.bool b))
    | .date d => .ok (some (.str d.toISOString))
    | .set _ => .ok (some (.obj (some .objectC) []))
    | .map _ => .ok (some (.obj (some .objectC) []))
    | .arr xs => do
        let ys ← jrtList (jrtV fuel) xs
        pure (some (.arr ys))
    | .obj _ props => do
        let qs ← jrtProps (jrtV fuel) props
        pure (some (.obj (some .objectC) qs))

/-- Model of `Transformer.toJSON(instance)` (Transformer.ts lines 170-210), fuel-indexed. -/
def toJSON : Nat → JSValue → Except TErr JSValue
  | 0, _ => .error .outOfFuel
  | Nat.succ fuel, inst => do
      let result ← runKeys (fun _ key => encodeField (fun v => toJSON fuel v) inst key)
        (JSValue.obj (some .objectC) []) (ownKeys inst)
      match ← jrtV (Nat.succ fuel) result with
      | some v => pure v
      | none => pure .undefined

/-- Plain JSON-shaped object value `{ k1: v1, ... }`. -/
def plainObj (ps : List (String × JSValue)) : JSValue :=
  .obj (some .objectC) (ps.map (fun e => JSProp.mk (.s e.1) true true e.2))

/-- A user class with ordinary (writable, enumerable, string-keyed) default
fields and an optional static `types` schema. -/
def mkClass (n : String) (fs : List (String × JSValue))
    (tys : List (String × JSDescriptor)) : JSClass :=
  .user n (fs.map (fun e => JSProp.mk (.s e.1) true true e.2)) tys

/-! Helper lemmas about the property-list primitives and the key loop. -/

@[simp] theorem JSProp.key_mk (k : PKey) (w e : Bool) (v : JSValue) :
    (JSProp.mk k w e v).key = k := rfl

@[simp] theorem JSProp.writable_mk (k : PKey) (w e : Bool) (v : JSValue) :
    (JSProp.mk k w e v).writable = w := rfl

@[simp] theorem JSProp.enumerable_mk (k : PKey) (w e : Bool) (v : JSValue) :
    (JSProp.mk k w e v).enumerable = e := rfl

@[simp] theorem JSProp.val_mk (k : PKey) (w e : Bool) (v : JSValue) :
    (JSProp.mk k w e v).val = v := rfl

theorem setPropList_find_ne (ps : List JSProp) (k k2 : PKey) (v : JSValue)
    (h : ¬ k2 = k) :
    findProp (setPropList ps k v) k2 = findProp ps k2 := by
  have hks : ¬ k = k2 := fun hh => h hh.symm
  induction ps with
  | nil => simp [setPropList, findProp, hks]
  | cons p rest ih =>
      rcases p with ⟨pk, pw, pe, pv⟩
      by_cases hpk : pk = k
      · subst hpk
        cases pw <;> simp [setPropList, findProp, hks, ih]
      · by_cases hpk2 : pk = k2 <;>
          simp [setPropList, findProp, hpk, hpk2, h, ih]

theorem setProp_lookup_ne (a : JSValue) (k k2 : PKey) (v : JSValue) (h : ¬ k2 = k) :
    getOwnPropObj (setProp a k v) k2 = getOwnPropObj a k2 := by
  cases a <;> simp [setProp, getOwnPropObj]
  exact setPropList_find_ne _ _ _ _ h

/-- Flag/nodup well-formedness of a property list (the shape of every object
the encoder builds from scratch). -/
def goodProps (ps : List JSProp) : Prop :=
  (∀ q ∈ ps, q.writable = true ∧ q.enumerable = true) ∧ (ps.map JSProp.key).Nodup

/-- Plain object in encoder-normal form. -/
def plainGood (v : JSValue) : Prop :=
  ∃ ps, v = .obj (some .objectC) ps ∧ goodProps ps

theorem setPropList_keys_mem (ps : List JSProp) (k : PKey) (v : JSValue)
    (h : findProp ps k ≠ none) :
    (setPropList ps k v).map JSProp.key = ps.map JSProp.key := by
  induction ps with
  | nil => simp [findProp] at h
  | cons p rest ih =>
      rcases p with ⟨pk, pw, pe, pv⟩
      by_cases hpk : pk = k
      · subst hpk
        cases pw <;> simp [setPropList]
      · rw [findProp] at h
        simp only [JSProp.key_mk, if_neg hpk] at h
        simp [setPropList, hpk, ih h]

theorem setPropList_keys_new (ps : List JSProp) (k : PKey) (v : JSValue)
    (h : findProp ps k = none) :
    (setPropList ps k v).map JSProp.key = ps.map JSProp.key ++ [k] := by
  induction ps with
  | nil => simp [setPropList]
  | cons p rest ih =>
      rcases p with ⟨pk, pw, pe, pv⟩
      by_cases hpk : pk = k
      · rw [findProp] at h
        simp [hpk] at h
      · rw [findProp] at h
        simp only [JSProp.key_mk, if_neg hpk] at h
        simp [setPropList, hpk, ih h]

theorem setPropList_flags (ps : List JSProp) (k : PKey) (v : JSValue)
    (h : ∀ q ∈ ps, q.writable = true ∧ q.enumerable = true) :
    ∀ q ∈ setPropList ps k v, q.writable = true ∧ q.enumerable = true := by
  induction ps with
  | nil =>
      intro q hq
      simp [setPropList] at hq
      simp [hq]
  | cons p rest ih =>
      intro q hq
      rcases p with ⟨pk, pw, pe, pv⟩
      have hpwe := h _ (List.mem_cons_self _ _)
      simp only [JSProp.writable_mk, JSProp.enumerable_mk] at hpwe
      by_cases hpk : pk = k
      · subst hpk
        rw [setPropList] at hq
        simp only [JSProp.key_mk, if_pos rfl, JSProp.writable_mk, hpwe.1, if_true] at hq
        simp at hq
        rcases hq with hq | hq
        · subst hq
          simp [hpwe.1, hpwe.2]
        · exact h q (by simp [hq])
      · rw [setPropList] at hq
        simp only [JSProp.key_mk, if_neg hpk] at hq
        simp at hq
        rcases hq with hq | hq
        · subst hq
          simp [hpwe.1, hpwe.2]
        · exact ih (fun q2 hq2 => h q2 (by simp [hq2])) q hq

theorem setPropList_find_self (ps : List JSProp) (k : PKey) (v : JSValue)
    (h : ∀ q ∈ ps, q.writable = true ∧ q.enumerable = true) :
    findProp (setPropList ps k v) k = some (.mk k true true v) := by
  induction ps with
  | nil => simp [setPropList, findProp]
  | cons p rest ih =>
      rcases p with ⟨pk, pw, pe, pv⟩
      have hpwe := h _ (List.mem_cons_self _ _)
      simp only [JSProp.writable_mk, JSProp.enumerable_mk] at hpwe
      by_cases hpk : pk = k
      · subst hpk
        simp [setPropList, findProp, hpwe.1, hpwe.2]
      · simp [setPropList, findProp, hpk]
        exact ih (fun q2 hq2 => h q2 (by simp [hq2]))

theorem findProp_none_key (ps : List JSProp) (k : PKey) (h : findProp ps k = none) :
    ∀ q ∈ ps, ¬ q.key = k := by
  induction ps with
  | nil => intro q hq; simp at hq
  | cons p rest ih =>
      intro q hq
      rw [findProp] at h
      by_cases hh : p.key = k
      · rw [if_pos hh] at h; exact Option.noConfusion h
      · rw [if_neg hh] at h
        rcases List.mem_cons.mp hq with hq2 | hq2
        · subst hq2; exact hh
        · exact ih h q hq2

theorem plainGood_empty : plainGood (.obj (some .objectC) []) :=
  ⟨[], rfl, by simp [goodProps]⟩

theorem plainGood_setProp (a : JSValue) (k : PKey) (v : JSValue) (h : plainGood a) :
    plainGood (setProp a k v) := by
  obtain ⟨ps, rfl, hflags, hnd⟩ := h
  refine ⟨setPropList ps k v, rfl, setPropList_flags ps k v hflags, ?_⟩
  cases hfind : findProp ps k with
  | some q =>
      rw [setPropList_keys_mem ps k v (by simp [hfind])]
      exact hnd
  | none =>
      rw [setPropList_keys_new ps k v hfind]
      have hk : k ∉ ps.map JSProp.key := by
        intro hmem
        obtain ⟨q, hq, hqk⟩ := List.mem_map.mp hmem
        exact (findProp_none_key ps k hfind q hq) hqk
      simp [List.nodup_append, hnd, hk]

theorem plainGood_lookup_self (a : JSValue) (k : PKey) (v : JSValue) (h : plainGood a) :
    getOwnPropObj (setProp a k v) k = some (.mk k true true v) := by
  obtain ⟨ps, rfl, hflags, hnd⟩ := h
  simp only [setProp, getOwnPropObj]
  exact setPropList_find_self ps k v hflags

/-- Invariant preservation along the key loop. -/
theorem runKeys_inv {P : JSValue → Prop}
    (step : JSValue → PKey → Except TErr (Option JSValue)) :
    ∀ (keys : List PKey) (acc out : JSValue), runKeys step acc keys = .ok out → P acc →
      (∀ a key r, key ∈ keys → P a → step a key = .ok r → P (applyAct a key r)) →
      P out := by
  intro keys
  induction keys with
  | nil =>
      intro acc out h hP _
      rw [runKeys] at h
      cases h
      exact hP
  | cons key rest ih =>
      intro acc out h hP hstep
      rw [runKeys] at h
      cases hs : step acc key with
      | error e => rw [hs] at h; exact absurd h (by simp [Bind.bind, Except.bind])
      | ok r =>
          rw [hs] at h
          simp only [Bind.bind, Except.bind] at h
          exact ih (applyAct acc key r) out h
            (hstep acc key r (by simp) hP hs)
            (fun a k2 r2 hk2 => hstep a k2 r2 (by simp [hk2]))

theorem findProp_some_key (ps : List JSProp) (k : PKey) (q : JSProp)
    (h : findProp ps k = some q) : q.key = k := by
  induction ps with
  | nil => simp [findProp] at h
  | cons p rest ih =>
      rw [findProp] at h
      by_cases hh : p.key = k
      · rw [if_pos hh] at h; cases h; exact hh
      · rw [if_neg hh] at h; exact ih h

theorem findProp_some_mem (ps : List JSProp) (k : PKey) (q : JSProp)
    (h : findProp ps k = some q) : q ∈ ps := by
  induction ps with
  | nil => simp [findProp] at h
  | cons p rest ih =>
      rw [findProp] at h
      by_cases hh : p.key = k
      · rw [if_pos hh] at h; cases h; exact List.mem_cons_self _ _
      · rw [if_neg hh] at h; exact List.mem_cons_of_mem _ (ih h)

theorem findProp_eq_none_of_not_mem (ps : List JSProp) (k : PKey)
    (h : k ∉ ps.map JSProp.key) : findProp ps k = none := by
  induction ps with
  | nil => rfl
  | cons p rest ih =>
      rw [findProp]
      have h1 : ¬ p.key = k := fun hh => h (by simp [hh.symm])
      rw [if_neg h1]
      exact ih (fun hh => h (by simp; right; simpa using hh))

/-- Splitting the key loop at a list append. -/
theorem runKeys_append (step : JSValue → PKey → Except TErr (Option JSValue)) :
    ∀ (l1 l2 : List PKey) (acc out : JSValue),
      runKeys step acc (l1 ++ l2) = .ok out →
      ∃ mid, runKeys step acc l1 = .ok mid ∧ runKeys step mid l2 = .ok out := by
  intro l1
  induction l1 with
  | nil =>
      intro l2 acc out h
      exact ⟨acc, by rw [runKeys], by simpa using h⟩
  | cons key rest ih =>
      intro l2 acc out h
      rw [List.cons_append, runKeys] at h
      cases hs : step acc key with
      | error e => rw [hs] at h; exact absurd h (by simp [Bind.bind, Except.bind])
      | ok r =>
          rw [hs] at h
          simp only [Bind.bind, Except.bind] at h
          obtain ⟨mid, h1, h2⟩ := ih l2 (applyAct acc key r) out h
          refine ⟨mid, ?_, h2⟩
          rw [runKeys, hs]
          simp only [Bind.bind, Except.bind]
          exact h1

/-! Skip and write lemmas for the per-field steps. -/

theorem fieldAction_skip_absent (recur : JSValue → JSClass → Bool → Except TErr JSValue)
    (json : JSValue) (cname : String) (tys : List (String × JSDescriptor))
    (strict : Bool) (inst : JSValue) (key : PKey)
    (h : getOwnPropObj inst key = none) :
    fieldAction recur json cname tys strict inst key = .ok none := by
  simp [fieldAction, h]

theorem fieldAction_skip_nonwritable (recur : JSValue → JSClass → Bool → Except TErr JSValue)
    (json : JSValue) (cname : String) (tys : List (String × JSDescriptor))
    (strict : Bool) (inst : JSValue) (key : PKey) (p : JSProp)
    (h : getOwnPropObj inst key = some p) (hw : p.writable = false) :
    fieldAction recur json cname tys strict inst key = .ok none := by
  simp [fieldAction, h, hw]

theorem fieldAction_skip_sym (recur : JSValue → JSClass → Bool → Except TErr JSValue)
    (json : JSValue) (cname : String) (tys : List (String × JSDescriptor))
    (strict : Bool) (inst : JSValue) (n : Nat) (p : JSProp)
    (h : getOwnPropObj inst (.sym n) = some p) :
    fieldAction recur json cname tys strict inst (.sym n) = .ok none := by
  rcases p with ⟨pk, pw, pe, pv⟩
  cases pw <;> simp [fieldAction, h]

theorem fieldAction_skip_func (recur : JSValue → JSClass → Bool → Except TErr JSValue)
    (json : JSValue) (cname : String) (tys : List (String × JSDescriptor))
    (strict : Bool) (inst : JSValue) (k : String) (p : JSProp)
    (h : getOwnPropObj inst (.s k) = some p) (hw : p.writable = true)
    (hv : p.val = .func) :
    fieldAction recur json cname tys strict inst (.s k) = .ok none := by
  simp [fieldAction, h, hw, hv, truthy, typeofJS,
    Bind.bind, Except.bind, Pure.pure, Except.pure]

theorem encodeField_skip_absent (recur : JSValue → Except TErr JSValue)
    (inst : JSValue) (key : PKey) (h : getOwnPropObj inst key = none) :
    encodeField recur inst key = .ok none := by
  simp [encodeField, h]

theorem encodeField_skip_sym (recur : JSValue → Except TErr JSValue)
    (inst : JSValue) (n : Nat) (p : JSProp)
    (h : getOwnPropObj inst (.sym n) = some p) :
    encodeField recur inst (.sym n) = .ok none := by
  by_cases hv : typeofJS p.val = "function" <;> simp [encodeField, h, hv]

theorem encodeField_skip_func (recur : JSValue → Except TErr JSValue)
    (inst : JSValue) (key : PKey) (p : JSProp)
    (h : getOwnPropObj inst key = some p) (hv : p.val = .func) :
    encodeField recur inst key = .ok none := by
  simp [encodeField, h, hv, typeofJS]

theorem encodeField_write_date (recur : JSValue → Except TErr JSValue)
    (inst : JSValue) (k : String) (p : JSProp) (d : DateTag)
    (h : getOwnPropObj inst (.s k) = some p) (hv : p.val = .date d) :
    encodeField recur inst (.s k) = .ok (some (.date d)) := by
  simp [encodeField, h, hv, typeofJS]

theorem encodeField_write_undefined (recur : JSValue → Except TErr JSValue)
    (inst : JSValue) (k : String) (p : JSProp)
    (h : getOwnPropObj inst (.s k) = some p) (hv : p.val = .undefined) :
    encodeField recur inst (.s k) = .ok (some .undefined) := by
  simp [encodeField, h, hv, typeofJS]

/-! Lemmas about the final serialization pass. -/

theorem jrtProps_key_subset (g : JSValue → Except TErr (Option JSValue)) :
    ∀ (ps qs : List JSProp), jrtProps g ps = .ok qs →
      ∀ q ∈ qs, q.key ∈ ps.map JSProp.key := by
  intro ps
  induction ps with
  | nil =>
      intro qs h q hq
      rw [jrtProps] at h
      cases h
      simp at hq
  | cons p rest ih =>
      intro qs h q hq
      rcases p with ⟨pk, pw, pe, pv⟩
      cases pk with
      | sym n =>
          simp only [jrtProps] at h
          have := ih qs h q hq
          simp only [List.map_cons, JSProp.key_mk]
          exact List.mem_cons_of_mem _ this
      | s k2 =>
          cases pe with
          | false =>
              simp only [jrtProps] at h
              have := ih qs h q hq
              simp only [List.map_cons, JSProp.key_mk]
              exact List.mem_cons_of_mem _ this
          | true =>
              simp only [jrtProps] at h
              cases hg : g pv with
              | error e => rw [hg] at h; simp [Bind.bind, Except.bind] at h
              | ok r =>
                  rw [hg] at h
                  simp only [Bind.bind, Except.bind] at h
                  cases hrest : jrtProps g rest with
                  | error e => rw [hrest] at h; simp at h
                  | ok rest2 =>
                      rw [hrest] at h
                      cases r with
                      | some v =>
                          simp only [] at h
                          cases h
                          rcases List.mem_cons.mp hq with hq2 | hq2
                          · subst hq2
                            simp
                          · have := ih rest2 hrest q hq2
                            simp only [List.map_cons, JSProp.key_mk]
                            exact List.mem_cons_of_mem _ this
                      | none =>
                          simp only [] at h
                          cases h
                          have := ih _ hrest q hq
                          simp only [List.map_cons, JSProp.key_mk]
                          exact List.mem_cons_of_mem _ this

theorem jrtProps_keys_str (g : JSValue → Except TErr (Option JSValue)) :
    ∀ (ps qs : List JSProp), jrtProps g ps = .ok qs →
      ∀ q ∈ qs, ∃ k2, q.key = PKey.s k2 := by
  intro ps
  induction ps with
  | nil =>
      intro qs h q hq
      rw [jrtProps] at h
      cases h
      simp at hq
  | cons p rest ih =>
      intro qs h q hq
      rcases p with ⟨pk, pw, pe, pv⟩
      cases pk with
      | sym n =>
          simp only [jrtProps] at h
          exact ih qs h q hq
      | s k2 =>
          cases pe with
          | false =>
              simp only [jrtProps] at h
              exact ih qs h q hq
          | true =>
              simp only [jrtProps] at h
              cases hg : g pv with
              | error e => rw [hg] at h; simp [Bind.bind, Except.bind] at h
              | ok r =>
                  rw [hg] at h
                  simp only [Bind.bind, Except.bind] at h
                  cases hrest : jrtProps g rest with
                  | error e => rw [hrest] at h; simp at h
                  | ok rest2 =>
                      rw [hrest] at h
                      cases r with
                      | some v =>
                          simp only [] at h
                          cases h
                          rcases List.mem_cons.mp hq with hq2 | hq2
                          · subst hq2
                            exact ⟨k2, rfl⟩
                          · exact ih rest2 hrest q hq2
                      | none =>
                          simp only [] at h
                          cases h
                          exact ih _ hrest q hq

/-- How a single surviving entry of the pre-serialization object is
transformed by the final pass. -/
theorem jrtProps_find (g : JSValue → Except TErr (Option JSValue)) :
    ∀ (ps qs : List JSProp) (k : String) (w : Bool) (pv : JSValue),
      (ps.map JSProp.key).Nodup →
      jrtProps g ps = .ok qs →
      findProp ps (.s k) = some (.mk (.s k) w true pv) →
      ∃ r, g pv = .ok r ∧
        (r = none → findProp qs (.s k) = none) ∧
        (∀ v, r = some v → findProp qs (.s k) = some (.mk (.s k) true true v)) := by
  intro ps
  induction ps with
  | nil =>
      intro qs k w pv _ _ hf
      simp [findProp] at hf
  | cons p rest ih =>
      intro qs k w pv hnd hj hf
      rcases p with ⟨pk, pw, pe, pv2⟩
      by_cases hpk : pk = PKey.s k
      · -- head is the found property
        rw [findProp] at hf
        simp only [JSProp.key_mk, if_pos hpk] at hf
        cases hf
        simp only [jrtProps] at hj
        cases hg : g pv with
        | error e => rw [hg] at hj; simp [Bind.bind, Except.bind] at hj
        | ok r =>
            rw [hg] at hj
            simp only [Bind.bind, Except.bind] at hj
            cases hrest : jrtProps g rest with
            | error e => rw [hrest] at hj; simp at hj
            | ok rest2 =>
                rw [hrest] at hj
                refine ⟨r, rfl, ?_, ?_⟩
                · intro hr
                  subst hr
                  simp only [] at hj
                  cases hj
                  -- qs = rest2 and .s k is not a key of rest
                  have hknotin : PKey.s k ∉ rest.map JSProp.key := by
                    simp only [List.map_cons, JSProp.key_mk, List.nodup_cons] at hnd
                    exact hnd.1
                  apply findProp_eq_none_of_not_mem
                  intro hmem
                  obtain ⟨q, hq, hqk⟩ := List.mem_map.mp hmem
                  have hsub := jrtProps_key_subset g rest _ hrest q hq
                  rw [hqk] at hsub
                  exact hknotin hsub
                · intro v hr
                  subst hr
                  simp only [] at hj
                  cases hj
                  simp [findProp]
      · -- head key differs from .s k
        rw [findProp] at hf
        simp only [JSProp.key_mk, if_neg hpk] at hf
        have hndr : (rest.map JSProp.key).Nodup := by
          simp only [List.map_cons, List.nodup_cons] at hnd
          exact hnd.2
        cases pk with
        | sym n =>
            simp only [jrtProps] at hj
            exact ih qs k w pv hndr hj hf
        | s k2 =>
            cases pe with
            | false =>
                simp only [jrtProps] at hj
                exact ih qs k w pv hndr hj hf
            | true =>
                simp only [jrtProps] at hj
                cases hg : g pv2 with
                | error e => rw [hg] at hj; simp [Bind.bind, Except.bind] at hj
                | ok r0 =>
                    rw [hg] at hj
                    simp only [Bind.bind, Except.bind] at hj
                    cases hrest : jrtProps g rest with
                    | error e => rw [hrest] at hj; simp at hj
                    | ok rest2 =>
                        rw [hrest] at hj
                        obtain ⟨r, hgr, hnone, hsome⟩ := ih rest2 k w pv hndr hrest hf
                        cases r0 with
                        | some v0 =>
                            simp only [] at hj
                            cases hj
                            refine ⟨r, hgr, ?_, ?_⟩
                            · intro hr
                              rw [findProp]
                              simp only [JSProp.key_mk, if_neg hpk]
                              exact hnone hr
                            · intro v hr
                              rw [findProp]
                              simp only [JSProp.key_mk, if_neg hpk]
                              exact hsome v hr
                        | none =>
                            simp only [] at hj
                            cases hj
                            exact ⟨r, hgr, hnone, hsome⟩

end KrT

open KrT

/-- Claim C1: the claim says `fromJSON({bar:"x"}, class{bar=0}, true)` raises
`InvalidType` and the same call with `strict=false` returns an instance with
`bar === "x"`.  The code disagrees at this very input: because the default `0`
is falsy, the falsiness test at line 66 treats the field as having no inferable
type, so strict mode raises the "type was not found" TransformerError (line
68) instead of InvalidType, and non-strict mode raises the "invalid
constructor in types" TransformerError (line 73, `new undefined()` caught)
instead of returning an instance. -/
theorem claim1_falsy_default_throws_in_both_modes :
    fromJSON 9 (plainObj [("bar", .str "x")]) (mkClass "Foo" [("bar", .num 0)] []) true
      = .error (.thrown (.transformer (.typeNotFound "bar" "Foo")))
    ∧ fromJSON 9 (plainObj [("bar", .str "x")]) (mkClass "Foo" [("bar", .num 0)] []) false
      = .error (.thrown (.transformer (.invalidTypesConstructor "bar" "Foo"))) :=
  ⟨rfl, rfl⟩

/-- Claim C2 (counterexample): the claim says a source value `null` always
leaves the field at its pre-existing default, in both modes.  The code has no
null check: with default `5`, non-strict mode assigns `null` into the field
(line 89, no `|| value` fallback), and strict mode raises InvalidType because
`typeof null === "object" !== "number"` (line 86). -/
theorem claim2_null_is_not_passed_through :
    fromJSON 9 (plainObj [("bar", .null)]) (mkClass "Foo" [("bar", .num 5)] []) false
      = .ok (.obj (some (mkClass "Foo" [("bar", .num 5)] []))
               [.mk (.s "bar") true true .null])
    ∧ fromJSON 9 (plainObj [("bar", .null)]) (mkClass "Foo" [("bar", .num 5)] []) true
      = .error (.thrown (.transformer (.invalidType "bar" "Foo" "number" "object"))) :=
  ⟨rfl, rfl⟩

/-- Claim C3: the claim says `fromJSON({set:[1,2]}, class{set=new Set()})`
yields a two-element Set and `fromJSON({map:{a:1}}, class{map=new Map()})` a
one-entry Map.  With no static `types`, the descriptor is `undefined`, and the
read of the key `off` from the descriptor in the Set branch (line 136) and the
read of the key `of` in the Map branch (line 118) both crash with a generic
TypeError before any element is copied — contradicting the tests of the repo
("should ignore primitives when transform array elements into Set" / "... into
Map elements"). -/
theorem claim3_untyped_set_and_map_fields_crash :
    fromJSON 9 (plainObj [("set", .arr [.num 1, .num 2])])
        (mkClass "T" [("set", .set [])] []) true
      = .error (.thrown (.typeError "Reflect.get called on non-object"))
    ∧ fromJSON 9 (plainObj [("map", plainObj [("a", .num 1)])])
        (mkClass "T" [("map", .map [])] []) true
      = .error (.thrown (.typeError "Reflect.get called on non-object")) :=
  ⟨rfl, rfl⟩

/-- Claim C4: the claim says `fromJSON({time:"2025-01-01"}, class{time=new
Date()})` yields a Date for that calendar date while a boolean raises
InvalidType in strict mode.  The Date branch (lines 146-153) throws
InvalidType whenever the effective strictness holds, before ever checking
whether the coercion succeeded, so the valid date string raises exactly like
the boolean — contradicting the repo test `should create Date from string or
number`. -/
theorem claim4_date_branch_throws_even_on_valid_string :
    fromJSON 9 (plainObj [("time", .str "2025-01-01")])
        (mkClass "Foo" [("time", .date .now)] []) true
      = .error (.thrown (.transformer (.invalidType "time" "Foo" "string" "string")))
    ∧ fromJSON 9 (plainObj [("time", .bool true)])
        (mkClass "Foo" [("time", .date .now)] []) true
      = .error (.thrown (.transformer (.invalidType "time" "Foo" "string" "boolean"))) :=
  ⟨rfl, rfl⟩

/-- Claim C5: the claim (and the doc comment of the descriptor, Transformer.ts
lines 17-21) says a descriptor `strict` always overrides the ambient mode, so
`strict:false` disables throwing for the field even under an ambient strict
call.  `#shouldThrow` (line 215) computes `descriptor.strict || strict`, so
`strict:false` falls back to the ambient `true` and the field still throws:
with `types = {bar:{strict:false}}` and default `1`, `fromJSON({bar:"x"}, C,
true)` raises InvalidType. -/
theorem claim5_descriptor_strict_false_cannot_override :
    shouldThrowFn true (some (.mk none none none (some false))) = true
    ∧ fromJSON 9 (plainObj [("bar", .str "x")])
        (mkClass "Foo" [("bar", .num 1)] [("bar", .mk none none none (some false))]) true
      = .error (.thrown (.transformer (.invalidType "bar" "Foo" "number" "string"))) :=
  ⟨rfl, rfl⟩

/-- Claim C6: the claim says `fromJSON({}, class{bar=""}, false)` returns an
instance with the default `""` (and the strict call raises for the missing
field).  Because the default `""` is falsy, line 66 sends both modes into the
missing-type path before the missing-field check is ever reached: strict mode
raises the "type was not found" error and non-strict mode raises the "invalid
constructor in types" error instead of returning the default. -/
theorem claim6_empty_string_default_throws_in_both_modes :
    fromJSON 9 (plainObj []) (mkClass "Foo" [("bar", .str "")] []) true
      = .error (.thrown (.transformer (.typeNotFound "bar" "Foo")))
    ∧ fromJSON 9 (plainObj []) (mkClass "Foo" [("bar", .str "")] []) false
      = .error (.thrown (.transformer (.invalidTypesConstructor "bar" "Foo"))) :=
  ⟨rfl, rfl⟩

/-- Claim C7: the claim (and spec section 4.1) says a missing/malformed
descriptor is handled without raising anything but the documented structured
error kinds, in particular decoding an Array, Map or Set field of a class
with no static `types` must not crash with a generic exception.  The Array
branch read of the key `of` from the descriptor (line 100) happens on the
`undefined` descriptor and crashes with a generic TypeError — contradicting
the repo test `should not transform array elements if their type are not
declared in types`. -/
theorem claim7_untyped_array_field_crashes_with_type_error :
    fromJSON 9 (plainObj [("arr", .arr [plainObj []])])
        (mkClass "Foo" [("arr", .arr [])] []) true
      = .error (.thrown (.typeError "Reflect.get called on non-object")) :=
  rfl

/-- Claim C8: the claim says `toJSON(fromJSON(j, T)) == j` for every flat
record type `T` of primitive fields and every matching `j`.  It fails for the
first test shape of the repo, a class whose single field `foo` defaults to the
empty string, with `j` mapping `foo` to the string `bar`: the falsy default `""` sends line 66 into the missing-type path and
strict decoding throws, so no round trip exists.  For a truthy default
(`foo = "a"`) the very same round trip holds. -/
theorem claim8_flat_round_trip_fails_on_falsy_default :
    fromJSON 9 (plainObj [("foo", .str "bar")]) (mkClass "Target" [("foo", .str "")] []) true
      = .error (.thrown (.transformer (.typeNotFound "foo" "Target")))
    ∧ fromJSON 9 (plainObj [("foo", .str "bar")]) (mkClass "Target" [("foo", .str "a")] []) true
      = .ok (.obj (some (mkClass "Target" [("foo", .str "a")] []))
               [.mk (.s "foo") true true (.str "bar")])
    ∧ toJSON 9 (.obj (some (mkClass "Target" [("foo", .str "a")] []))
               [.mk (.s "foo") true true (.str "bar")])
      = .ok (plainObj [("foo", .str "bar")]) :=
  ⟨rfl, rfl, rfl⟩

/-- Claim C9 (counterexample): the claim says both directions process a field
only if it is own, enumerable and writable.  `toJSON` checks neither flag
(lines 172-175: only function values and symbol keys are skipped), so an own
non-writable non-enumerable data field is still emitted; and `fromJSON` checks
only `writable` (line 59), so an own writable non-enumerable field is decoded
from the source. -/
theorem claim9_flags_are_not_checked_as_claimed :
    toJSON 9 (JSValue.obj (some .objectC) [.mk (.s "bar") false false (.num 1)])
      = .ok (.obj (some .objectC) [.mk (.s "bar") true true (.num 1)])
    ∧ fromJSON 9 (plainObj [("w", .num 7)])
        (JSClass.user "W" [.mk (.s "w") true false (.num 1)] []) true
      = .ok (.obj (some (.user "W" [.mk (.s "w") true false (.num 1)] []))
               [.mk (.s "w") true false (.num 7)]) :=
  ⟨rfl, rfl⟩

/-- Claim C2 (amended): for a field whose default value is a truthy primitive
and which is present in the source as null, a null source value is not treated
as "no update": in strict mode fromJSON raises InvalidType (typeof null is
"object"), and in non-strict mode the field is set to null, replacing the
default. -/
theorem claim2_amended_null_updates_field (fuel : Nat) (cn k : String) (v : JSValue)
    (hp : isPrimitiveVal v = true) (ht : truthy v = true) :
    fromJSON (fuel + 1) (plainObj [(k, .null)]) (mkClass cn [(k, v)] []) true
      = .error (.thrown (.transformer (.invalidType k cn (typeofJS v) "object")))
    ∧ fromJSON (fuel + 1) (plainObj [(k, .null)]) (mkClass cn [(k, v)] []) false
      = .ok (.obj (some (mkClass cn [(k, v)] [])) [.mk (.s k) true true .null]) := by
  cases v <;> simp [isPrimitiveVal] at hp <;> simp [truthy] at ht
  all_goals {
    constructor <;>
    simp [fromJSON, mkClass, constructJS, className, typesOf, plainObj, looseNull,
      typeofJS, ownKeys, runKeys, fieldAction, getOwnPropObj, findProp, lookupDescriptor,
      shouldThrowFn, truthy, hasOwn, reflectGet, JSProp.key, JSProp.val,
      JSProp.writable, JSProp.enumerable, terr, applyAct, setProp, setPropList, ht,
      Bind.bind, Except.bind, Pure.pure, Except.pure]
  }

/-- Witness for the amended theorem of claim C2 at the concrete field default 5. -/
theorem claim2_amended_null_updates_field_witness :
    isPrimitiveVal (JSValue.num 5) = true ∧ truthy (JSValue.num 5) = true ∧
    (fromJSON (0 + 1) (plainObj [("bar", .null)]) (mkClass "Foo" [("bar", .num 5)] []) true
        = .error (.thrown (.transformer (.invalidType "bar" "Foo" (typeofJS (.num 5)) "object")))
      ∧ fromJSON (0 + 1) (plainObj [("bar", .null)]) (mkClass "Foo" [("bar", .num 5)] []) false
        = .ok (.obj (some (mkClass "Foo" [("bar", .num 5)] []))
                 [.mk (.s "bar") true true .null])) :=
  ⟨rfl, rfl, claim2_amended_null_updates_field 0 "Foo" "bar" (.num 5) rfl rfl⟩

/-- Any run of the encode loop starting from the fresh plain result object
yields a plain object with fully-enabled, duplicate-free properties. -/
theorem runKeys_plainGood (step : JSValue → PKey → Except TErr (Option JSValue))
    (keys : List PKey) (acc out : JSValue) (h : runKeys step acc keys = .ok out)
    (ha : plainGood acc) : plainGood out := by
  refine runKeys_inv _ _ _ _ h ha ?_
  intro a key r _ hPa _
  cases r with
  | none => exact hPa
  | some v => exact plainGood_setProp _ _ _ hPa

/-- Claim C9 (amended): fromJSON decodes into a field only if it is an own,
writable, non-symbol-keyed property whose value is not a function
(enumerability is not checked); toJSON skips exactly the symbol-keyed and
function-valued members (neither writability nor enumerability is checked),
and its output never contains a symbol-keyed property. -/
theorem claim9_amended_visibility :
    (∀ (fuel : Nat) (json : JSValue) (cls : JSClass) (strict : Bool) (out : JSValue)
        (k0 : PKey) (p0 : JSProp),
        fromJSON fuel json cls strict = .ok out →
        getOwnPropObj (constructJS cls) k0 = some p0 →
        (p0.writable = false ∨ (∃ n, k0 = .sym n) ∨ p0.val = .func) →
        getOwnPropObj out k0 = some p0)
    ∧ (∀ (fuel : Nat) (inst out : JSValue) (key : PKey) (p : JSProp),
        toJSON fuel inst = .ok out →
        getOwnPropObj inst key = some p → p.val = .func →
        getOwnPropObj out key = none)
    ∧ (∀ (fuel : Nat) (inst out : JSValue) (n : Nat),
        toJSON fuel inst = .ok out →
        getOwnPropObj out (.sym n) = none) := by
  refine ⟨?_, ?_, ?_⟩
  · -- fromJSON leaves non-writable / symbol-keyed / function-valued fields alone
    intro fuel json cls strict out k0 p0 h h0 hskip
    cases fuel with
    | zero => rw [fromJSON] at h; exact absurd h (by simp)
    | succ f =>
        simp only [fromJSON] at h
        by_cases hjson : looseNull json = true ∨ ¬ typeofJS json = "object"
        · rw [if_pos hjson] at h; exact absurd h (by simp)
        · rw [if_neg hjson] at h
          refine @runKeys_inv (fun a => getOwnPropObj a k0 = some p0) _ _ _ _ h h0 ?_
          intro a key r _ hPa hs
          by_cases hkey : key = k0
          · subst hkey
            have hnone : fieldAction (fun j k s => fromJSON f j k s) json (className cls)
                (typesOf cls) strict a key = .ok none := by
              rcases hskip with hw | ⟨n, rfl⟩ | hf
              · exact fieldAction_skip_nonwritable _ _ _ _ _ _ _ _ hPa hw
              · exact fieldAction_skip_sym _ _ _ _ _ _ _ _ hPa
              · cases hkw : p0.writable with
                | false => exact fieldAction_skip_nonwritable _ _ _ _ _ _ _ _ hPa hkw
                | true =>
                    cases key with
                    | sym n => exact fieldAction_skip_sym _ _ _ _ _ _ _ _ hPa
                    | s k2 => exact fieldAction_skip_func _ _ _ _ _ _ _ _ hPa hkw hf
            rw [hs] at hnone
            cases hnone
            exact hPa
          · cases r with
            | none => exact hPa
            | some v =>
                show getOwnPropObj (setProp a key v) k0 = some p0
                rw [setProp_lookup_ne a key k0 v (fun hh => hkey hh.symm)]
                exact hPa
  · -- toJSON never emits a function-valued member
    intro fuel inst out key p h hp hv
    cases fuel with
    | zero => rw [toJSON] at h; exact absurd h (by simp)
    | succ f =>
        simp only [toJSON] at h
        cases hr : runKeys (fun _ key2 => encodeField (fun v => toJSON f v) inst key2)
            (.obj (some .objectC) []) (ownKeys inst) with
        | error e => rw [hr] at h; simp [Bind.bind, Except.bind] at h
        | ok result =>
            rw [hr] at h
            simp only [Bind.bind, Except.bind] at h
            have hres : plainGood result ∧ getOwnPropObj result key = none := by
              refine @runKeys_inv
                (fun a => plainGood a ∧ getOwnPropObj a key = none) _ _ _ _ hr
                ⟨plainGood_empty, by simp [getOwnPropObj, findProp]⟩ ?_
              intro a key2 r _ hPa hs
              by_cases hkey : key2 = key
              · subst hkey
                have hskip2 : encodeField (fun v => toJSON f v) inst key2 = .ok none :=
                  encodeField_skip_func _ _ _ _ hp hv
                simp only [] at hs
                rw [hs] at hskip2
                cases hskip2
                exact hPa
              · cases r with
                | none => exact hPa
                | some v2 =>
                    refine ⟨plainGood_setProp _ _ _ hPa.1, ?_⟩
                    show getOwnPropObj (setProp a key2 v2) key = none
                    rw [setProp_lookup_ne a key2 key v2 (fun hh => hkey hh.symm)]
                    exact hPa.2
            obtain ⟨⟨ps, hresult, hflags, hnd⟩, hlook⟩ := hres
            subst hresult
            simp only [jrtV] at h
            cases hq : jrtProps (jrtV f) ps with
            | error e => rw [hq] at h; simp [Bind.bind, Except.bind] at h
            | ok qs =>
                rw [hq] at h
                simp only [Bind.bind, Except.bind, Pure.pure, Except.pure] at h
                cases h
                simp only [getOwnPropObj]
                apply findProp_eq_none_of_not_mem
                intro hmem
                obtain ⟨q, hq2, hqk⟩ := List.mem_map.mp hmem
                have hsub := jrtProps_key_subset _ _ _ hq q hq2
                rw [hqk] at hsub
                obtain ⟨q2, hq3, hq3k⟩ := List.mem_map.mp hsub
                simp only [getOwnPropObj] at hlook
                exact (findProp_none_key ps key hlook q2 hq3) hq3k
  · -- toJSON output has no symbol-keyed properties at all
    intro fuel inst out n h
    cases fuel with
    | zero => rw [toJSON] at h; exact absurd h (by simp)
    | succ f =>
        simp only [toJSON] at h
        cases hr : runKeys (fun _ key2 => encodeField (fun v => toJSON f v) inst key2)
            (.obj (some .objectC) []) (ownKeys inst) with
        | error e => rw [hr] at h; simp [Bind.bind, Except.bind] at h
        | ok result =>
            rw [hr] at h
            simp only [Bind.bind, Except.bind] at h
            obtain ⟨ps, hresult, hflags, hnd⟩ := runKeys_plainGood _ _ _ _ hr plainGood_empty
            subst hresult
            simp only [jrtV] at h
            cases hq : jrtProps (jrtV f) ps with
            | error e => rw [hq] at h; simp [Bind.bind, Except.bind] at h
            | ok qs =>
                rw [hq] at h
                simp only [Bind.bind, Except.bind, Pure.pure, Except.pure] at h
                cases h
                simp only [getOwnPropObj]
                cases hfq : findProp qs (.sym n) with
                | none => rfl
                | some q =>
                    obtain ⟨k2, hk2⟩ := jrtProps_keys_str _ _ _ hq q
                      (findProp_some_mem _ _ _ hfq)
                    have hkq := findProp_some_key _ _ _ hfq
                    rw [hkq] at hk2
                    exact absurd hk2 (by simp)

/-- Witness for the amended theorem of claim C9: a non-writable field survives
decoding untouched; a function-valued and a symbol-keyed member are absent
from the encoder output. -/
theorem claim9_amended_visibility_witness :
    (fromJSON 3 (plainObj []) (JSClass.user "K" [.mk (.s "a") false true (.num 1)] []) false
        = .ok (.obj (some (.user "K" [.mk (.s "a") false true (.num 1)] []))
                 [.mk (.s "a") false true (.num 1)])
      ∧ getOwnPropObj (.obj (some (JSClass.user "K" [.mk (.s "a") false true (.num 1)] []))
            [.mk (.s "a") false true (.num 1)]) (.s "a")
          = some (.mk (.s "a") false true (.num 1)))
    ∧ (toJSON 3 (.obj (some .objectC)
          [.mk (.s "f") true true .func, .mk (.sym 0) true true (.num 1)])
        = .ok (.obj (some .objectC) [])
      ∧ getOwnPropObj (JSValue.obj (some .objectC) []) (.s "f") = none
      ∧ getOwnPropObj (JSValue.obj (some .objectC) []) (.sym 0) = none) :=
  ⟨⟨rfl, claim9_amended_visibility.1 3 (plainObj [])
      (JSClass.user "K" [.mk (.s "a") false true (.num 1)] []) false
      (.obj (some (.user "K" [.mk (.s "a") false true (.num 1)] []))
        [.mk (.s "a") false true (.num 1)])
      (.s "a") (.mk (.s "a") false true (.num 1)) rfl rfl (Or.inl rfl)⟩,
   rfl,
   claim9_amended_visibility.2.1 3
     (.obj (some .objectC) [.mk (.s "f") true true .func, .mk (.sym 0) true true (.num 1)])
     (.obj (some .objectC) []) (.s "f") (.mk (.s "f") true true .func) rfl rfl rfl,
   claim9_amended_visibility.2.2 3
     (.obj (some .objectC) [.mk (.s "f") true true .func, .mk (.sym 0) true true (.num 1)])
     (.obj (some .objectC) []) 0 rfl⟩

/-- When the encode loop reaches key `k` whose step writes the value `w`, the
final plain result of the loop maps `k` to `w` with full flags. -/
theorem encodeRun_writes (f : Nat) (proto : Option JSClass) (props : List JSProp)
    (ps : List JSProp) (k : String) (w : JSValue) (l1 l2 : List PKey)
    (hw : encodeField (fun v => toJSON f v) (.obj proto props) (.s k) = .ok (some w))
    (hr : runKeys (fun _ key2 => encodeField (fun v => toJSON f v) (.obj proto props) key2)
        (.obj (some .objectC) []) (l1 ++ .s k :: l2) = .ok (.obj (some .objectC) ps)) :
    findProp ps (.s k) = some (.mk (.s k) true true w) := by
  obtain ⟨mid, h1, h2⟩ := runKeys_append _ _ _ _ _ hr
  have hmidGood := runKeys_plainGood _ _ _ _ h1 plainGood_empty
  rw [runKeys] at h2
  rw [hw] at h2
  simp only [Bind.bind, Except.bind] at h2
  have hfinal := @runKeys_inv
      (fun a => plainGood a ∧ getOwnPropObj a (.s k) = some (.mk (.s k) true true w))
      _ _ _ _ h2
      ⟨plainGood_setProp _ _ _ hmidGood, plainGood_lookup_self _ _ _ hmidGood⟩ ?_
  · simpa [getOwnPropObj] using hfinal.2
  · intro a key2 r2 _ hPa hs2
    by_cases hkey : key2 = PKey.s k
    · subst hkey
      have hs3 : encodeField (fun v => toJSON f v) (.obj proto props) (.s k)
          = .ok r2 := hs2
      rw [hw] at hs3
      cases hs3
      exact ⟨plainGood_setProp _ _ _ hPa.1, plainGood_lookup_self _ _ _ hPa.1⟩
    · cases r2 with
      | none => exact hPa
      | some v2 =>
          refine ⟨plainGood_setProp _ _ _ hPa.1, ?_⟩
          show getOwnPropObj (setProp a key2 v2) (.s k) = _
          rw [setProp_lookup_ne a key2 _ v2 (fun hh => hkey hh.symm)]
          exact hPa.2

/-- Claim C10: for every instance, a successful toJSON returns a value whose
top level is a plain Object; every own string-keyed Date-valued field of the
instance appears in the output as its ISO-8601 serialization string (not a
Date), and every own string-keyed field holding undefined is omitted from the
output — consequences of the final `JSON.parse(JSON.stringify(result))` pass. -/
theorem claim10_serialization_pass (fuel : Nat) (proto : Option JSClass)
    (props : List JSProp) (out : JSValue)
    (h : toJSON fuel (.obj proto props) = .ok out) :
    (∃ qs, out = .obj (some .objectC) qs)
    ∧ ∀ (k : String) (p : JSProp),
        getOwnPropObj (.obj proto props) (.s k) = some p →
        (∀ d, p.val = .date d →
          getOwnPropObj out (.s k) = some (.mk (.s k) true true (.str d.toISOString)))
        ∧ (p.val = .undefined → getOwnPropObj out (.s k) = none) := by
  cases fuel with
  | zero => rw [toJSON] at h; exact absurd h (by simp)
  | succ f =>
      simp only [toJSON] at h
      cases hr : runKeys (fun _ key2 =>
          encodeField (fun v => toJSON f v) (.obj proto props) key2)
          (.obj (some .objectC) []) (ownKeys (.obj proto props)) with
      | error e => rw [hr] at h; simp [Bind.bind, Except.bind] at h
      | ok result =>
          rw [hr] at h
          simp only [Bind.bind, Except.bind] at h
          obtain ⟨ps, hresult, hflags, hnd⟩ := runKeys_plainGood _ _ _ _ hr plainGood_empty
          subst hresult
          simp only [jrtV] at h
          cases hq : jrtProps (jrtV f) ps with
          | error e => rw [hq] at h; simp [Bind.bind, Except.bind] at h
          | ok qs =>
              rw [hq] at h
              simp only [Bind.bind, Except.bind, Pure.pure, Except.pure] at h
              cases h
              refine ⟨⟨qs, rfl⟩, ?_⟩
              intro k p hp
              have hpf : findProp props (.s k) = some p := by
                simpa [getOwnPropObj] using hp
              have hkp := findProp_some_key _ _ _ hpf
              have hmem0 := findProp_some_mem _ _ _ hpf
              have hmem : PKey.s k ∈ ownKeys (.obj proto props) := by
                simp only [ownKeys]
                exact hkp ▸ List.mem_map_of_mem _ hmem0
              obtain ⟨l1, l2, hsplit⟩ := List.append_of_mem hmem
              rw [hsplit] at hr
              constructor
              · -- a Date field surfaces as its ISO string
                intro d hd
                have hw : encodeField (fun v => toJSON f v) (.obj proto props) (.s k)
                    = .ok (some (.date d)) :=
                  encodeField_write_date (fun v => toJSON f v) (.obj proto props) k p d hp hd
                have hfind := encodeRun_writes f proto props ps k (.date d) l1 l2 hw hr
                obtain ⟨r2, hg, _, hsome2⟩ :=
                  jrtProps_find (jrtV f) ps qs k true (.date d) hnd hq hfind
                cases f with
                | zero => rw [jrtV] at hg; exact absurd hg (by simp)
                | succ f2 =>
                    rw [jrtV] at hg
                    cases hg
                    simp only [getOwnPropObj]
                    exact hsome2 _ rfl
              · -- an undefined field is omitted
                intro hd
                have hw : encodeField (fun v => toJSON f v) (.obj proto props) (.s k)
                    = .ok (some .undefined) :=
                  encodeField_write_undefined (fun v => toJSON f v) (.obj proto props) k p hp hd
                have hfind := encodeRun_writes f proto props ps k .undefined l1 l2 hw hr
                obtain ⟨r2, hg, hnone2, _⟩ :=
                  jrtProps_find (jrtV f) ps qs k true .undefined hnd hq hfind
                cases f with
                | zero => rw [jrtV] at hg; exact absurd hg (by simp)
                | succ f2 =>
                    rw [jrtV] at hg
                    cases hg
                    simp only [getOwnPropObj]
                    exact hnone2 rfl

/-- Witness for claim C10 at an instance with one Date field and one
undefined field. -/
theorem claim10_serialization_pass_witness :
    toJSON 3 (.obj (some .objectC)
        [.mk (.s "t") true true (.date .now), .mk (.s "u") true true .undefined])
      = .ok (.obj (some .objectC) [.mk (.s "t") true true (.str (DateTag.toISOString .now))])
    ∧ getOwnPropObj (JSValue.obj (some .objectC)
        [.mk (.s "t") true true (.str (DateTag.toISOString .now))]) (.s "t")
      = some (.mk (.s "t") true true (.str (DateTag.toISOString .now)))
    ∧ getOwnPropObj (JSValue.obj (some .objectC)
        [.mk (.s "t") true true (.str (DateTag.toISOString .now))]) (.s "u") = none :=
  ⟨rfl,
   ((claim10_serialization_pass 3 (some .objectC)
      [.mk (.s "t") true true (.date .now), .mk (.s "u") true true .undefined]
      (.obj (some .objectC) [.mk (.s "t") true true (.str (DateTag.toISOString .now))])
      rfl).2 "t" (.mk (.s "t") true true (.date .now)) rfl).1 .now rfl,
   ((claim10_serialization_pass 3 (some .objectC)
      [.mk (.s "t") true true (.date .now), .mk (.s "u") true true .undefined]
      (.obj (some .objectC) [.mk (.s "t") true true (.str (DateTag.toISOString .now))])
      rfl).2 "u" (.mk (.s "u") true true .undefined) rfl).2 rfl⟩
